import Mathlib

/-!
Verification of the rfc2texi orchestration script.

The script fetches RFC/Internet-Draft XML files, converts them via an external
library, and emits an Emacs Info dir index.  This file gives a shallow
embedding of the script's own logic (config parsing, identifier derivation,
index generation, fetch caching, and the orchestrator loops) and proves the
specified properties about it.  Lines are modelled as lists of characters;
Python string primitives (strip, split, substring membership, slicing) are
modelled by the correspondingly named functions below.
-/

namespace Rfc2Texi

/-- Model of Python's removal of trailing whitespace (the right half of
str.strip): drop the maximal whitespace suffix. -/
def dropTrailWs : List Char → List Char
  | [] => []
  | c :: cs =>
    if dropTrailWs cs = [] then (if c.isWhitespace then [] else [c])
    else c :: dropTrailWs cs

/-- Model of Python's str.strip(): drop leading and trailing whitespace. -/
def pyStrip (l : List Char) : List Char :=
  dropTrailWs (l.dropWhile Char.isWhitespace)

/-- Accumulator-based worker for whitespace splitting. -/
def splitAux : List Char → List Char → List (List Char)
  | [], acc => if acc = [] then [] else [acc.reverse]
  | c :: cs, acc =>
    if c.isWhitespace then
      if acc = [] then splitAux cs [] else acc.reverse :: splitAux cs []
    else splitAux cs (c :: acc)

/-- Model of Python's str.split() with no argument: split on runs of
whitespace, discarding empty fields. -/
def pySplit (l : List Char) : List (List Char) :=
  splitAux l []

/-- The RFC archive URL template of the script, with the number substituted
(source: RFC_URL together with its .format call). -/
def RFC_URL (number : List Char) : List Char :=
  "https://www.rfc-editor.org/rfc/rfc".toList ++ number ++ ".xml".toList

/-- The IETF draft archive URL template of the script, with the draft name
substituted (source: DRAFT_URL together with its .format call). -/
def DRAFT_URL (name : List Char) : List Char :=
  "https://www.ietf.org/archive/id/".toList ++ name ++ ".xml".toList

/-- What one config line contributes: nothing (blank or comment line), a
warning (unrecognized line), or one (url, output name) entry. -/
inductive LineResult where
  | skip : LineResult
  | warn : LineResult
  | entry : List Char → List Char → LineResult
deriving DecidableEq

/-- The keyword dispatch of parse_specs_conf on the whitespace-split fields
of a line: parts[0] is the keyword, rest the remaining fields.  Mirrors the
if/elif/else chain on (kind, len(parts)). -/
def classifyParts (kind : List Char) (rest : List (List Char)) : LineResult :=
  if kind = "rfc".toList then
    match rest with
    | num :: _ => .entry (RFC_URL num) ("rfc".toList ++ num)
    | [] => .warn
  else if kind = "draft".toList then
    match rest with
    | name :: _ => .entry (DRAFT_URL name) name
    | [] => .warn
  else if kind = "url".toList then
    match rest with
    | u :: n :: _ => .entry u n
    | _ => .warn
  else .warn

/-- Processing of one raw config line by parse_specs_conf: strip, skip blank
and full-comment lines, strip an inline comment, split, dispatch on the
keyword.  The none result models the IndexError Python would raise on
parts[0] if the split produced no fields. -/
def processLine (raw : List Char) : Option LineResult :=
  let line := pyStrip raw
  if line = [] then some .skip
  else if line.take 1 = ['#'] then some .skip
  else
    let line2 := if line.any (fun c => c == '#')
      then pyStrip (line.takeWhile (fun c => c != '#'))
      else line
    match pySplit line2 with
    | [] => none
    | kind :: rest => some (classifyParts kind rest)

/-- One step of the parse_specs_conf loop: thread the accumulated entry list
and warning count through one line, propagating a raised exception (none). -/
def parseStep (acc : Option (List (List Char × List Char) × Nat))
    (raw : List Char) : Option (List (List Char × List Char) × Nat) :=
  match acc with
  | none => none
  | some (specs, warns) =>
    match processLine raw with
    | none => none
    | some .skip => some (specs, warns)
    | some .warn => some (specs, warns + 1)
    | some (.entry u n) => some (specs ++ [(u, n)], warns)

/-- parse_specs_conf: fold the per-line processing over the file's lines,
returning the (url, output name) entries in line order together with the
number of warnings printed.  none models an uncaught exception. -/
def parse_specs_conf (lines : List (List Char)) :
    Option (List (List Char × List Char) × Nat) :=
  lines.foldl parseStep (some ([], 0))

/-- The entry contributed by a single line, if any. -/
def entryOfLine (raw : List Char) : Option (List Char × List Char) :=
  match processLine raw with
  | some (.entry u n) => some (u, n)
  | _ => none

/-- The number of warnings a single line produces (0 or 1). -/
def warnsOfLine (raw : List Char) : Nat :=
  match processLine raw with
  | some .warn => 1
  | _ => 0

example : processLine "rfc 9126".toList =
    some (.entry (RFC_URL "9126".toList) "rfc9126".toList) := by decide

example : processLine "  # a comment".toList = some .skip := by decide

example : processLine "".toList = some .skip := by decide

example : processLine "bogus foo".toList = some .warn := by decide

example : processLine "url https://e.com/s.xml name  # c".toList =
    some (.entry "https://e.com/s.xml".toList "name".toList) := by decide

example : processLine "url https://e.com/a#frag name".toList =
    some .warn := by decide

example : parse_specs_conf ["rfc 9126".toList, "bogus foo".toList] =
    some ([(RFC_URL "9126".toList, "rfc9126".toList)], 1) := by decide

/-! ## Canonical identifier derivation (convert_file, lines 131-153) -/

/-- The "RFC <number>" label format used by convert_file. -/
def rfcLabel (n : List Char) : List Char :=
  "RFC ".toList ++ n

/-- The seriesInfo loop of convert_file: scan the front/seriesInfo elements
and return the value attribute (default the empty string) of the first one
whose name attribute equals "RFC".  Each element is modelled as its optional
name attribute paired with its value attribute defaulted to empty. -/
def findRFCSeries : List (Option (List Char) × List Char) → Option (List Char)
  | [] => none
  | si :: rest =>
    if si.1 = some "RFC".toList then some si.2 else findRFCSeries rest

/-- The regex match re.match(on the pattern anchored rfc digits) applied to
the basename, returning the digit group: the basename must be the three
characters rfc followed by one or more decimal digits. -/
def rfcBasenameDigits (b : List Char) : Option (List Char) :=
  match b with
  | 'r' :: 'f' :: 'c' :: ds =>
    if ds ≠ [] ∧ ds.all Char.isDigit then some ds else none
  | _ => none

/-- The doc_id computation of convert_file, verbatim: number and docName are
the root attributes defaulted to the empty string, seriesInfo the front
seriesInfo elements, basename the input file's base name.  The first block
sets doc_id from number else docName; the second block, entered only when
number is empty, lets a seriesInfo RFC entry overwrite both rfc_num and
doc_id; the final block lets an rfc-digits basename overwrite doc_id when
rfc_num is still empty. -/
def derive_doc_id (number docName : List Char)
    (seriesInfo : List (Option (List Char) × List Char))
    (basename : List Char) : List Char :=
  let doc_id0 := if number ≠ [] then rfcLabel number
    else if docName ≠ [] then docName
    else []
  let afterSeries : List Char × List Char :=
    if number = [] then
      match findRFCSeries seriesInfo with
      | some v => (v, rfcLabel v)
      | none => (number, doc_id0)
    else (number, doc_id0)
  match rfcBasenameDigits basename with
  | some ds => if afterSeries.1 = [] then rfcLabel ds else afterSeries.2
  | none => afterSeries.2

/-- Ordered-strategy reading of the identifier derivation, following the
spec's description amended to the code's actual priority: explicit RFC
number attribute; else the first seriesInfo RFC entry (whose empty value can
still be overridden by the filename pattern); else the rfc-digits filename
pattern; else the document name attribute. -/
def derive_doc_id_strategies (number docName : List Char)
    (seriesInfo : List (Option (List Char) × List Char))
    (basename : List Char) : List Char :=
  if number ≠ [] then rfcLabel number
  else
    match findRFCSeries seriesInfo with
    | some v =>
      if v = [] then
        match rfcBasenameDigits basename with
        | some ds => rfcLabel ds
        | none => rfcLabel v
      else rfcLabel v
    | none =>
      match rfcBasenameDigits basename with
      | some ds => rfcLabel ds
      | none => docName

example : derive_doc_id "9126".toList "".toList [] "rfc9126".toList =
    "RFC 9126".toList := by decide

example : derive_doc_id "".toList "".toList [] "rfc6749".toList =
    "RFC 6749".toList := by decide

/-! ## Info dir index generation (generate_dir_file) -/

/-- Python's replace of the substring .info by the empty string, scanning
left to right over non-overlapping occurrences (info_basename.replace). -/
def stripInfo : List Char → List Char
  | '.' :: 'i' :: 'n' :: 'f' :: 'o' :: rest => stripInfo rest
  | c :: rest => c :: stripInfo rest
  | [] => []

/-- String-level wrapper for stripInfo. -/
def stripInfoStr (s : String) : String :=
  ⟨stripInfo s.data⟩

/-- One accumulated conversion result: output .info base name, canonical
identifier (possibly empty), title (possibly empty). -/
abbrev DirEntry := String × String × String

/-- The menu line generate_dir_file writes for one entry. -/
def menuLine (e : DirEntry) : String :=
  let name := stripInfoStr e.1
  let label := if e.2.1 = "" then name else e.2.1
  "* " ++ label ++ ": (" ++ name ++ ").  " ++ e.2.2 ++ "."

/-- The nine fixed lines generate_dir_file emits before the menu entries:
banner, page-break marker, node header, menu heading. -/
def dirHeaderLines : List String :=
  ["This is the file .../info/dir, which contains the",
   "topmost node of the Info hierarchy, called (dir)Top.",
   "",
   "\x1f",
   "File: dir,\tNode: Top\tThis is the top of the INFO tree",
   "",
   "* Menu:",
   "",
   "RFC and Internet-Draft Specifications"]

/-- Python's string comparison: lexicographic on code points, a strict
prefix comparing below its extensions. -/
def lexLe : List Char → List Char → Bool
  | [], _ => true
  | _ :: _, [] => false
  | a :: as, b :: bs =>
    if a < b then true
    else if b < a then false
    else lexLe as bs

theorem lexLe_total : ∀ a b : List Char, lexLe a b = true ∨ lexLe b a = true
  | [], _ => Or.inl rfl
  | _ :: _, [] => Or.inr rfl
  | a :: as, b :: bs => by
    simp only [lexLe]
    rcases lt_trichotomy a b with h | h | h
    · simp [h]
    · subst h
      simpa [lt_irrefl] using lexLe_total as bs
    · simp [h, lt_asymm h]

theorem lexLe_trans : ∀ a b c : List Char,
    lexLe a b = true → lexLe b c = true → lexLe a c = true
  | [], _, _, _, _ => rfl
  | _ :: _, [], _, h, _ => by simp [lexLe] at h
  | _ :: _, _ :: _, [], _, h => by simp [lexLe] at h
  | a :: as, b :: bs, c :: cs, h1, h2 => by
    simp only [lexLe] at h1 h2 ⊢
    rcases lt_trichotomy a b with hab | hab | hab
    · rcases lt_trichotomy b c with hbc | hbc | hbc
      · simp [lt_trans hab hbc]
      · simp [hbc ▸ hab]
      · simp [hbc, lt_asymm hbc] at h2
    · subst hab
      rcases lt_trichotomy a c with hac | hac | hac
      · simp [hac]
      · subst hac
        simp only [lt_irrefl, if_false] at h1 h2 ⊢
        exact lexLe_trans as bs cs h1 h2
      · simp [hac, lt_asymm hac] at h2
    · simp [hab, lt_asymm hab] at h1

theorem lexLe_antisymm : ∀ a b : List Char,
    lexLe a b = true → lexLe b a = true → a = b
  | [], [], _, _ => rfl
  | [], _ :: _, _, h => by simp [lexLe] at h
  | _ :: _, [], h, _ => by simp [lexLe] at h
  | a :: as, b :: bs, h1, h2 => by
    simp only [lexLe] at h1 h2
    rcases lt_trichotomy a b with hab | hab | hab
    · simp [hab, lt_asymm hab] at h2
    · subst hab
      simp only [lt_irrefl, if_false] at h1 h2
      exact congrArg (a :: ·) (lexLe_antisymm as bs h1 h2)
    · simp [hab, lt_asymm hab] at h1

/-- The key ordering used by sorted(entries, key=lambda e: e[1]): compare
the identifier components as Python compares strings. -/
def entryLe (a b : DirEntry) : Prop :=
  lexLe a.2.1.data b.2.1.data = true

instance : DecidableRel entryLe :=
  fun a b => inferInstanceAs (Decidable (_ = true))

instance : IsTotal DirEntry entryLe :=
  ⟨fun a b => lexLe_total a.2.1.data b.2.1.data⟩

instance : IsTrans DirEntry entryLe :=
  ⟨fun a b c h1 h2 => lexLe_trans a.2.1.data b.2.1.data c.2.1.data h1 h2⟩

/-- Python's sorted(entries, key=lambda e: e[1]): the stable ascending sort
by the identifier component, modelled by stable insertion sort. -/
def sortEntries (entries : List DirEntry) : List DirEntry :=
  List.insertionSort entryLe entries

/-- The full line list generate_dir_file writes: fixed header, one menu line
per entry in sorted order, and a trailing empty line. -/
def dirFileLines (entries : List DirEntry) : List String :=
  dirHeaderLines ++ (sortEntries entries).map menuLine ++ [""]

/-- The file contents written by generate_dir_file: the lines joined by
newlines (the join of the line list). -/
def dirFileContent (entries : List DirEntry) : String :=
  String.intercalate "\n" (dirFileLines entries)

example : menuLine ("rfc9126.info", "RFC 9126",
    "OAuth 2.0 Rich Authorization Requests") =
    "* RFC 9126: (rfc9126).  OAuth 2.0 Rich Authorization Requests." := by
  decide

example : sortEntries [("b.info", "RFC 2", "t"), ("a.info", "RFC 1", "s")] =
    [("a.info", "RFC 1", "s"), ("b.info", "RFC 2", "t")] := by decide

/-! ## Fetching (fetch_xml) and the orchestrator (main) -/

/-- The observable outcome of one fetch_xml call: whether the cached notice
was printed, whether a network transfer was performed, and the file
existence predicate afterwards. -/
structure FetchResult where
  cachedNotice : Bool
  transferred : Bool
  existsAfter : List Char → Bool

/-- fetch_xml: if the destination exists, print the cached notice and return
with no transfer and no filesystem change; else transfer the URL's content,
creating the destination.  The filesystem is modelled by its existence
predicate. -/
def fetch_xml (exists0 : List Char → Bool) (url outputPath : List Char) :
    FetchResult :=
  if exists0 outputPath then
    { cachedNotice := true, transferred := false, existsAfter := exists0 }
  else
    { cachedNotice := false, transferred := true,
      existsAfter := fun p => (p == outputPath) || exists0 p }

/-- The per-entry fetch loop of main's sync mode: each spec entry is tried;
a successful try contributes its local path to the file list, a failing try
(modelled by none) is caught at the call site, prints a failure notice and
is excluded.  Returns the file list and the number of failure notices. -/
def fetchPhase (tryFetch : List Char × List Char → Option (List Char))
    (specs : List (List Char × List Char)) : List (List Char) × Nat :=
  specs.foldl
    (fun acc s =>
      match tryFetch s with
      | some p => (acc.1 ++ [p], acc.2)
      | none => (acc.1, acc.2 + 1))
    ([], 0)

/-- The outcome of main's conversion phase: the accumulated successful
entries, the dir file contents if one was written, and the printed
summary (succeeded, total). -/
structure RunOutcome where
  entries : List DirEntry
  dirFile : Option (List String)
  summary : Nat × Nat
deriving DecidableEq

/-- The tail of main: convert every file (convert models convert_file, whose
failures and raised exceptions both yield none and are caught per file),
accumulate the successful results, write the dir file only when at least one
entry was accumulated, and report the succeeded/total summary. -/
def mainConvertPhase (convert : String → Option DirEntry)
    (files : List String) : RunOutcome :=
  let entries := files.filterMap convert
  { entries := entries
    dirFile := if entries = [] then none else some (dirFileLines entries)
    summary := (entries.length, files.length) }

/-! ## Parser lemmas -/

theorem splitAux_ne_nil : ∀ (l acc : List Char), acc ≠ [] → splitAux l acc ≠ []
  | [], acc, h => by simp [splitAux, h]
  | c :: cs, acc, h => by
    simp only [splitAux]
    by_cases hw : c.isWhitespace
    · simp [hw, h]
    · simpa [hw] using splitAux_ne_nil cs (c :: acc) (by simp)

theorem dropWhileWs_shape (l : List Char) :
    l.dropWhile Char.isWhitespace = [] ∨
      ∃ c cs, l.dropWhile Char.isWhitespace = c :: cs ∧ c.isWhitespace = false := by
  induction l with
  | nil => exact Or.inl rfl
  | cons a l ih =>
    by_cases ha : a.isWhitespace
    · simpa [List.dropWhile_cons, ha] using ih
    · exact Or.inr ⟨a, l, by simp [List.dropWhile_cons, ha], by simp [ha]⟩

theorem dropTrailWs_cons_of_ne_nil (c : Char) (cs : List Char)
    (h : dropTrailWs cs ≠ []) : dropTrailWs (c :: cs) = c :: dropTrailWs cs := by
  simp only [dropTrailWs, h, if_false]

theorem dropTrailWs_cons_not_ws (c : Char) (cs : List Char)
    (h : c.isWhitespace = false) :
    dropTrailWs (c :: cs) = c :: dropTrailWs cs := by
  by_cases hcs : dropTrailWs cs = [] <;> simp [dropTrailWs, hcs, h]

theorem dropTrailWs_snoc (xs : List Char) (c : Char)
    (h : c.isWhitespace = false) : dropTrailWs (xs ++ [c]) = xs ++ [c] := by
  induction xs with
  | nil => simp [dropTrailWs, h]
  | cons a xs ih =>
    rw [List.cons_append, dropTrailWs_cons_of_ne_nil a (xs ++ [c]) (by simp [ih]), ih]

theorem pyStrip_cons_not_ws (c : Char) (cs : List Char)
    (h : c.isWhitespace = false) : pyStrip (c :: cs) = c :: dropTrailWs cs := by
  simp [pyStrip, List.dropWhile_cons, h, dropTrailWs_cons_not_ws c cs h]

theorem pyStrip_shape (l : List Char) :
    pyStrip l = [] ∨ ∃ c cs, pyStrip l = c :: cs ∧ c.isWhitespace = false := by
  rcases dropWhileWs_shape l with h | ⟨c, cs, h, hc⟩
  · exact Or.inl (by simp [pyStrip, h, dropTrailWs])
  · exact Or.inr ⟨c, dropTrailWs cs, by
      simp [pyStrip, h, dropTrailWs_cons_not_ws c cs hc], hc⟩

theorem pyStrip_eq_self_of (l : List Char)
    (h1 : ∃ c cs, l = c :: cs ∧ c.isWhitespace = false)
    (h2 : ∃ ys d, l = ys ++ [d] ∧ d.isWhitespace = false) :
    pyStrip l = l := by
  obtain ⟨c, cs, rfl, hc⟩ := h1
  obtain ⟨ys, d, heq, hd⟩ := h2
  rw [pyStrip_cons_not_ws c cs hc]
  have : dropTrailWs (c :: cs) = c :: cs := by
    rw [heq]
    exact dropTrailWs_snoc ys d hd
  rw [dropTrailWs_cons_not_ws c cs hc] at this
  exact this

theorem pySplit_ne_nil (c : Char) (cs : List Char)
    (h : c.isWhitespace = false) : pySplit (c :: cs) ≠ [] := by
  simp only [pySplit, splitAux, h, Bool.false_eq_true, if_false]
  exact splitAux_ne_nil cs [c] (by simp)

theorem splitAux_nonws (w : List Char)
    (hw : ∀ c ∈ w, c.isWhitespace = false) :
    ∀ acc : List Char, acc ≠ [] ∨ w ≠ [] → splitAux w acc = [acc.reverse ++ w] := by
  induction w with
  | nil =>
    intro acc h
    simp only [splitAux, h.resolve_right (by simp), if_false]
    simp
  | cons c cs ih =>
    intro acc _
    have hc : c.isWhitespace = false := hw c (by simp)
    simp only [splitAux, hc, Bool.false_eq_true, if_false]
    rw [ih (fun x hx => hw x (by simp [hx])) (c :: acc) (Or.inl (by simp))]
    simp

theorem splitAux_token (tok : List Char) (rest : List Char)
    (htok : ∀ c ∈ tok, c.isWhitespace = false) :
    ∀ acc : List Char, acc ≠ [] ∨ tok ≠ [] →
      splitAux (tok ++ ' ' :: rest) acc = (acc.reverse ++ tok) :: splitAux rest [] := by
  induction tok with
  | nil =>
    intro acc h
    simp only [List.nil_append, splitAux, Char.isWhitespace, if_true]
    simp [h.resolve_right (by simp)]
  | cons c cs ih =>
    intro acc _
    have hc : c.isWhitespace = false := htok c (by simp)
    simp only [List.cons_append, splitAux, hc, Bool.false_eq_true, if_false,
      List.append_eq]
    rw [ih (fun x hx => htok x (by simp [hx])) (c :: acc) (Or.inl (by simp))]
    simp

theorem processLine_isSome (raw : List Char) : (processLine raw).isSome = true := by
  unfold processLine
  rcases pyStrip_shape raw with h | ⟨c, cs, h, hc⟩
  · simp [h]
  · rw [h]
    simp only [List.cons_ne_nil, if_false, reduceCtorEq]
    by_cases hh : (c :: cs).take 1 = ['#']
    · simp [hh]
    · simp only [hh, if_false]
      by_cases hin : (c :: cs).any (fun x => x == '#')
      · have hch : c ≠ '#' := by
          intro hc'
          exact hh (by simp [hc', List.take])
        have htw : (c :: cs).takeWhile (fun x => x != '#') =
            c :: cs.takeWhile (fun x => x != '#') := by
          simp [List.takeWhile_cons, hch]
        rcases pyStrip_shape ((c :: cs).takeWhile (fun x => x != '#')) with h2 | h2
        · rw [htw, pyStrip_cons_not_ws c _ hc] at h2
          exact absurd h2 (by simp)
        · obtain ⟨d, ds, h2, hd⟩ := h2
          simp only [hin, if_true, h2]
          cases hsp : pySplit (d :: ds) with
          | nil => exact absurd hsp (pySplit_ne_nil d ds hd)
          | cons k r => simp
      · simp only [hin, if_false, Bool.false_eq_true]
        cases hsp : pySplit (c :: cs) with
        | nil => exact absurd hsp (pySplit_ne_nil c cs hc)
        | cons k r => simp

theorem parse_foldl : ∀ (lines : List (List Char))
    (s : List (List Char × List Char)) (w : Nat),
    lines.foldl parseStep (some (s, w)) =
      some (s ++ lines.filterMap entryOfLine, w + (lines.map warnsOfLine).sum)
  | [], s, w => by simp
  | L :: rest, s, w => by
    cases hL : processLine L with
    | none =>
      have := processLine_isSome L
      rw [hL] at this
      simp at this
    | some r =>
      cases r with
      | skip =>
        simp only [List.foldl_cons, parseStep, hL]
        rw [parse_foldl rest s w]
        have he : entryOfLine L = none := by simp [entryOfLine, hL]
        have hw : warnsOfLine L = 0 := by simp [warnsOfLine, hL]
        simp [he, hw]
      | warn =>
        simp only [List.foldl_cons, parseStep, hL]
        rw [parse_foldl rest s (w + 1)]
        have he : entryOfLine L = none := by simp [entryOfLine, hL]
        have hw : warnsOfLine L = 1 := by simp [warnsOfLine, hL]
        simp only [List.filterMap_cons, he, List.map_cons, List.sum_cons, hw,
          Option.some.injEq, Prod.mk.injEq]
        exact ⟨trivial, by omega⟩
      | entry u n =>
        simp only [List.foldl_cons, parseStep, hL]
        rw [parse_foldl rest (s ++ [(u, n)]) w]
        have he : entryOfLine L = some (u, n) := by simp [entryOfLine, hL]
        have hw : warnsOfLine L = 0 := by simp [warnsOfLine, hL]
        simp [he, hw, List.append_assoc]

/-- Characterization of parse_specs_conf: it always returns (never raises),
the entries are the per-line contributions in line order, and the warning
count is the per-line warning total. -/
theorem parse_specs_conf_eq (lines : List (List Char)) :
    parse_specs_conf lines =
      some (lines.filterMap entryOfLine, (lines.map warnsOfLine).sum) := by
  simpa using parse_foldl lines [] 0

/-- C10: parse_specs_conf is total over its input lines: for every sequence
of text lines it returns a result without raising; in particular the
indexing of the first split field is always safe, because every line
reaching the split is non-empty after stripping whitespace and removing
the inline-comment suffix. -/
theorem parse_specs_conf_total (lines : List (List Char)) :
    (parse_specs_conf lines).isSome = true := by
  rw [parse_specs_conf_eq]
  rfl

/-- C4: empty and fully commented lines are excluded from the entry list
without a warning, and a non-empty, non-comment line that does not match
any of the three recognized shapes (the warn classification, which covers
unrecognized keywords and recognized keywords with too few fields) emits
exactly one warning and contributes zero entries, while every other line
of the file is parsed exactly as it would be without the offending lines:
the parse is not aborted. -/
theorem skip_and_malformed_excluded
    (pre mid post : List (List Char)) (L1 L2 : List Char)
    (s : List (List Char × List Char)) (w : Nat)
    (h1 : pyStrip L1 = [] ∨ (pyStrip L1).take 1 = ['#'])
    (h2 : processLine L2 = some .warn)
    (h3 : parse_specs_conf (pre ++ mid ++ post) = some (s, w)) :
    parse_specs_conf (pre ++ L1 :: mid ++ L2 :: post) = some (s, w + 1) := by
  have hskip : processLine L1 = some .skip := by
    unfold processLine
    rcases h1 with h | h
    · simp [h]
    · by_cases he : pyStrip L1 = [] <;> simp [he, h]
  have he1 : entryOfLine L1 = none := by simp [entryOfLine, hskip]
  have hw1 : warnsOfLine L1 = 0 := by simp [warnsOfLine, hskip]
  have he2 : entryOfLine L2 = none := by simp [entryOfLine, h2]
  have hw2 : warnsOfLine L2 = 1 := by simp [warnsOfLine, h2]
  rw [parse_specs_conf_eq] at h3 ⊢
  simp only [Option.some.injEq, Prod.mk.injEq] at h3
  obtain ⟨hs, hw⟩ := h3
  subst hs
  subst hw
  simp only [List.filterMap_append, List.filterMap_cons, List.map_append,
    List.map_cons, List.sum_append, List.sum_cons, he1, he2, hw1, hw2,
    Option.some.injEq, Prod.mk.injEq]
  exact ⟨trivial, by omega⟩

/-- Witness for the skipped/malformed line theorem at a concrete config:
the comment line adds nothing, the bogus line adds one warning and no
entry, and the surrounding valid lines parse normally. -/
theorem skip_and_malformed_excluded_witness :
    parse_specs_conf ["rfc 9126".toList, "# note".toList,
      "url http://a b".toList, "bogus foo".toList, "draft d-x".toList] =
      some ([(RFC_URL "9126".toList, "rfc9126".toList),
        ("http://a".toList, "b".toList),
        (DRAFT_URL "d-x".toList, "d-x".toList)], 0 + 1) :=
  skip_and_malformed_excluded ["rfc 9126".toList] ["url http://a b".toList]
    ["draft d-x".toList] "# note".toList "bogus foo".toList
    [(RFC_URL "9126".toList, "rfc9126".toList),
      ("http://a".toList, "b".toList),
      (DRAFT_URL "d-x".toList, "d-x".toList)] 0
    (Or.inr (by decide)) (by decide) (by decide)

theorem processLine_compute (L : List Char) (hself : pyStrip L = L)
    (hne : L ≠ []) (hhead : L.take 1 ≠ ['#'])
    (hhash : L.any (fun c => c == '#') = false) :
    processLine L = match pySplit L with
      | [] => none
      | kind :: rest => some (classifyParts kind rest) := by
  unfold processLine
  rw [hself]
  simp [hne, hhead, hhash]

theorem take_one_ne_hash (c : Char) (cs : List Char) (hc : c ≠ '#') :
    (c :: cs).take 1 ≠ ['#'] := by
  simp [List.take_succ_cons, hc]

theorem processLine_two (t1 t2 : List Char) (h1 : t1 ≠ [])
    (hc1 : ∀ c ∈ t1, c.isWhitespace = false ∧ c ≠ '#')
    (h2 : t2 ≠ []) (hc2 : ∀ c ∈ t2, c.isWhitespace = false ∧ c ≠ '#') :
    processLine (t1 ++ ' ' :: t2) = some (classifyParts t1 [t2]) := by
  obtain ⟨a, as, rfl⟩ := List.exists_cons_of_ne_nil h1
  have ha := hc1 a (by simp)
  have hself : pyStrip ((a :: as) ++ ' ' :: t2) = (a :: as) ++ ' ' :: t2 := by
    apply pyStrip_eq_self_of
    · exact ⟨a, as ++ ' ' :: t2, by simp, ha.1⟩
    · refine ⟨(a :: as) ++ ' ' :: t2.dropLast, t2.getLast h2, ?_,
        (hc2 _ (List.getLast_mem h2)).1⟩
      conv_lhs => rw [← List.dropLast_append_getLast h2]
      simp
  have hhash : ((a :: as) ++ ' ' :: t2).any (fun c => c == '#') = false := by
    rw [List.any_eq_false]
    intro x hx
    rw [List.mem_append] at hx
    rcases hx with hx | hx
    · simpa using (hc1 x hx).2
    · rcases List.mem_cons.mp hx with rfl | hx
      · decide
      · simpa using (hc2 x hx).2
  have hsplit : pySplit ((a :: as) ++ ' ' :: t2) = [a :: as, t2] := by
    unfold pySplit
    rw [splitAux_token (a :: as) t2 (fun c hc => (hc1 c hc).1) [] (Or.inr (by simp))]
    rw [splitAux_nonws t2 (fun c hc => (hc2 c hc).1) [] (Or.inr h2)]
    simp
  have htake : ((a :: as) ++ ' ' :: t2).take 1 ≠ ['#'] := by
    rw [List.cons_append]
    exact take_one_ne_hash a _ ha.2
  rw [processLine_compute _ hself (by simp) htake hhash, hsplit]

theorem processLine_three (t1 t2 t3 : List Char) (h1 : t1 ≠ [])
    (hc1 : ∀ c ∈ t1, c.isWhitespace = false ∧ c ≠ '#')
    (h2 : t2 ≠ []) (hc2 : ∀ c ∈ t2, c.isWhitespace = false ∧ c ≠ '#')
    (h3 : t3 ≠ []) (hc3 : ∀ c ∈ t3, c.isWhitespace = false ∧ c ≠ '#') :
    processLine (t1 ++ ' ' :: (t2 ++ ' ' :: t3)) =
      some (classifyParts t1 [t2, t3]) := by
  obtain ⟨a, as, rfl⟩ := List.exists_cons_of_ne_nil h1
  have ha := hc1 a (by simp)
  have hself : pyStrip ((a :: as) ++ ' ' :: (t2 ++ ' ' :: t3)) =
      (a :: as) ++ ' ' :: (t2 ++ ' ' :: t3) := by
    apply pyStrip_eq_self_of
    · exact ⟨a, as ++ ' ' :: (t2 ++ ' ' :: t3), by simp, ha.1⟩
    · refine ⟨(a :: as) ++ ' ' :: (t2 ++ ' ' :: t3.dropLast), t3.getLast h3, ?_,
        (hc3 _ (List.getLast_mem h3)).1⟩
      conv_lhs => rw [← List.dropLast_append_getLast h3]
      simp
  have hhash : ((a :: as) ++ ' ' :: (t2 ++ ' ' :: t3)).any
      (fun c => c == '#') = false := by
    rw [List.any_eq_false]
    intro x hx
    rw [List.mem_append] at hx
    rcases hx with hx | hx
    · simpa using (hc1 x hx).2
    · rcases List.mem_cons.mp hx with rfl | hx
      · decide
      · rw [List.mem_append] at hx
        rcases hx with hx | hx
        · simpa using (hc2 x hx).2
        · rcases List.mem_cons.mp hx with rfl | hx
          · decide
          · simpa using (hc3 x hx).2
  have hsplit : pySplit ((a :: as) ++ ' ' :: (t2 ++ ' ' :: t3)) =
      [a :: as, t2, t3] := by
    unfold pySplit
    rw [splitAux_token (a :: as) (t2 ++ ' ' :: t3) (fun c hc => (hc1 c hc).1)
      [] (Or.inr (by simp))]
    rw [splitAux_token t2 t3 (fun c hc => (hc2 c hc).1) [] (Or.inr h2)]
    rw [splitAux_nonws t3 (fun c hc => (hc3 c hc).1) [] (Or.inr h3)]
    simp
  have htake : ((a :: as) ++ ' ' :: (t2 ++ ' ' :: t3)).take 1 ≠ ['#'] := by
    rw [List.cons_append]
    exact take_one_ne_hash a _ ha.2
  rw [processLine_compute _ hself (by simp) htake hhash, hsplit]

theorem parse_single_entry (L u n : List Char)
    (hp : processLine L = some (.entry u n)) :
    parse_specs_conf [L] = some ([(u, n)], 0) := by
  rw [parse_specs_conf_eq]
  have he : entryOfLine L = some (u, n) := by
    unfold entryOfLine
    rw [hp]
  have hw : warnsOfLine L = 0 := by
    unfold warnsOfLine
    rw [hp]
  simp [he, hw]

/-- C9: an rfc line yields exactly one entry whose URL is the RFC archive
template with the number substituted and whose output name is rfc plus the
number; a draft line yields exactly one entry whose URL is the IETF archive
template with the draft name substituted and whose output name is the
name. -/
theorem rfc_and_draft_templates (num name : List Char)
    (hnum : num ≠ []) (hnumc : ∀ c ∈ num, c.isWhitespace = false ∧ c ≠ '#')
    (hname : name ≠ []) (hnamec : ∀ c ∈ name, c.isWhitespace = false ∧ c ≠ '#') :
    parse_specs_conf ["rfc".toList ++ ' ' :: num] =
      some ([(RFC_URL num, "rfc".toList ++ num)], 0) ∧
    parse_specs_conf ["draft".toList ++ ' ' :: name] =
      some ([(DRAFT_URL name, name)], 0) := by
  constructor
  · have hp := processLine_two "rfc".toList num (by decide) (by decide) hnum hnumc
    have hcl : classifyParts "rfc".toList [num] =
        .entry (RFC_URL num) ("rfc".toList ++ num) := by
      simp [classifyParts]
    exact parse_single_entry _ _ _ (hcl ▸ hp)
  · have hp := processLine_two "draft".toList name (by decide) (by decide)
      hname hnamec
    have hcl : classifyParts "draft".toList [name] =
        .entry (DRAFT_URL name) name := by
      simp [classifyParts]
    exact parse_single_entry _ _ _ (hcl ▸ hp)

/-- Witness for the template theorem at rfc 9126 and draft d-x. -/
theorem rfc_and_draft_templates_witness :
    parse_specs_conf ["rfc".toList ++ ' ' :: "9126".toList] =
      some ([(RFC_URL "9126".toList, "rfc".toList ++ "9126".toList)], 0) ∧
    parse_specs_conf ["draft".toList ++ ' ' :: "d-x".toList] =
      some ([(DRAFT_URL "d-x".toList, "d-x".toList)], 0) :=
  rfc_and_draft_templates "9126".toList "d-x".toList (by decide) (by decide)
    (by decide) (by decide)

/-- C3 amended: a url line whose URL and name contain no whitespace and no
hash character yields exactly the (url, name) entry, both fields verbatim.
URLs containing a hash are excluded: the hash starts an inline comment. -/
theorem url_line_verbatim (u n : List Char) (hu : u ≠ [])
    (huc : ∀ c ∈ u, c.isWhitespace = false ∧ c ≠ '#')
    (hn : n ≠ []) (hnc : ∀ c ∈ n, c.isWhitespace = false ∧ c ≠ '#') :
    parse_specs_conf ["url".toList ++ ' ' :: (u ++ ' ' :: n)] =
      some ([(u, n)], 0) := by
  have hp := processLine_three "url".toList u n (by decide) (by decide)
    hu huc hn hnc
  have hcl : classifyParts "url".toList [u, n] = .entry u n := by
    simp [classifyParts]
  exact parse_single_entry _ _ _ (hcl ▸ hp)

/-- Witness for the verbatim url line theorem at a concrete URL and name. -/
theorem url_line_verbatim_witness :
    parse_specs_conf ["url".toList ++ ' ' ::
        ("https://e.com/s.xml".toList ++ ' ' :: "name".toList)] =
      some ([("https://e.com/s.xml".toList, "name".toList)], 0) :=
  url_line_verbatim "https://e.com/s.xml".toList "name".toList (by decide)
    (by decide) (by decide) (by decide)

/-- C3 counterexample: a url line whose URL contains the hash character is
truncated by inline-comment stripping before the split, so it produces a
warning and no entry instead of the verbatim (url, name) pair the claim
requires for every URL string. -/
theorem url_line_hash_counterexample :
    parse_specs_conf ["url http://x#y n".toList] = some ([], 1) ∧
    (some ([], 1) : Option (List (List Char × List Char) × Nat)) ≠
      some ([("http://x#y".toList, "n".toList)], 0) := by
  exact ⟨by decide, by decide⟩

/-! ## Claim C1: identifier strategy order -/

/-- C1 counterexample: with an empty number attribute, a non-empty document
name, and a front-matter seriesInfo element named RFC, the code derives the
identifier from the seriesInfo element, overriding the document name; under
the claimed strategy order a non-empty document name would have been final
and no later strategy could change it. -/
theorem docName_overridden_counterexample :
    derive_doc_id [] "draft-x".toList [(some "RFC".toList, "123".toList)]
      "x".toList = "RFC 123".toList ∧
    "RFC 123".toList ≠ "draft-x".toList :=
  ⟨by decide, by decide⟩

/-- C1 amended: the identifier derivation is equivalent to the ordered
strategy list with the code's actual priority: explicit RFC number
attribute; else the first seriesInfo element named RFC (whose empty value
can still be overridden by the filename pattern); else the rfc-digits
filename pattern; else the document name attribute. -/
theorem derive_doc_id_eq_strategies (number docName : List Char)
    (seriesInfo : List (Option (List Char) × List Char))
    (basename : List Char) :
    derive_doc_id number docName seriesInfo basename =
      derive_doc_id_strategies number docName seriesInfo basename := by
  unfold derive_doc_id derive_doc_id_strategies
  by_cases hn : number = []
  · cases hs : findRFCSeries seriesInfo with
    | some v =>
      by_cases hv : v = []
      · cases hb : rfcBasenameDigits basename <;> simp [hn, hs, hv]
      · cases hb : rfcBasenameDigits basename <;> simp [hn, hs, hv]
    | none =>
      cases hb : rfcBasenameDigits basename <;> by_cases hd : docName = [] <;>
        simp [hn, hs, hd]
  · cases hb : rfcBasenameDigits basename <;> simp [hn]

/-! ## Claims C2 and C8: the generated dir index -/

/-- The key ordering together with key distinctness; antisymmetric, so a
sorted permutation is unique. -/
def entryKeyNe (a b : DirEntry) : Prop :=
  entryLe a b ∧ a.2.1 ≠ b.2.1

instance : IsAntisymm DirEntry entryKeyNe :=
  ⟨fun _ _ h1 h2 =>
    (h1.2 (String.toList_inj.mp (lexLe_antisymm _ _ h1.1 h2.1))).elim⟩

theorem sortEntries_sorted_keyNe (l : List DirEntry)
    (h : (l.map (fun e => e.2.1)).Nodup) :
    List.Sorted entryKeyNe (sortEntries l) := by
  have hs : List.Sorted entryLe (sortEntries l) :=
    List.sorted_insertionSort entryLe l
  have hperm : List.Perm ((sortEntries l).map (fun e => e.2.1))
      (l.map (fun e => e.2.1)) :=
    (List.perm_insertionSort entryLe l).map _
  have hk : ((sortEntries l).map (fun e => e.2.1)).Nodup := hperm.nodup_iff.mpr h
  have hpair : List.Pairwise (fun a b : DirEntry => a.2.1 ≠ b.2.1)
      (sortEntries l) := List.pairwise_map.mp hk
  exact hs.and hpair

set_option maxRecDepth 4000 in
/-- C2 counterexample: two entries sharing the identifier RFC 1 keep their
input order under the stable sort by identifier, so the two permutations of
the same entry set produce different file contents. -/
theorem dir_file_order_sensitive :
    List.Perm
      [(("a.info" : String), ("RFC 1" : String), ("t1" : String)),
        ("b.info", "RFC 1", "t2")]
      [("b.info", "RFC 1", "t2"), ("a.info", "RFC 1", "t1")] ∧
    dirFileContent
        [("a.info", "RFC 1", "t1"), ("b.info", "RFC 1", "t2")] ≠
      dirFileContent
        [("b.info", "RFC 1", "t2"), ("a.info", "RFC 1", "t1")] :=
  ⟨by decide, by decide⟩

/-- C2 amended: index generation is deterministic and order-insensitive for
entry lists without duplicate identifiers: two lists with the same entries,
each with pairwise distinct identifiers, produce byte-for-byte identical
contents, and the menu entries appear sorted by the identifier string (the
empty string comparing below every other string). -/
theorem dir_file_deterministic (l1 l2 : List DirEntry)
    (h1 : (l1.map (fun e => e.2.1)).Nodup)
    (h2 : (l2.map (fun e => e.2.1)).Nodup)
    (hset : ∀ e : DirEntry, e ∈ l1 ↔ e ∈ l2) :
    dirFileContent l1 = dirFileContent l2 ∧
    List.Sorted entryLe (sortEntries l1) := by
  refine ⟨?_, List.sorted_insertionSort entryLe l1⟩
  have hperm : List.Perm l1 l2 :=
    (List.perm_ext_iff_of_nodup (List.Nodup.of_map _ h1)
      (List.Nodup.of_map _ h2)).mpr hset
  have heq : sortEntries l1 = sortEntries l2 :=
    List.eq_of_perm_of_sorted
      ((List.perm_insertionSort entryLe l1).trans
        (hperm.trans (List.perm_insertionSort entryLe l2).symm))
      (sortEntries_sorted_keyNe l1 h1) (sortEntries_sorted_keyNe l2 h2)
  unfold dirFileContent dirFileLines
  rw [heq]

/-- Witness for the determinism theorem at two orderings of a concrete
two-entry set with distinct identifiers. -/
theorem dir_file_deterministic_witness :
    dirFileContent
        [(("b.info" : String), ("RFC 2" : String), ("t" : String)),
          ("a.info", "RFC 1", "s")] =
      dirFileContent
        [("a.info", "RFC 1", "s"), ("b.info", "RFC 2", "t")] ∧
    List.Sorted entryLe (sortEntries
      [(("b.info" : String), ("RFC 2" : String), ("t" : String)),
        ("a.info", "RFC 1", "s")]) :=
  dir_file_deterministic _ _ (by decide) (by decide)
    (fun e => by
      simp only [List.mem_cons, List.not_mem_nil, or_false]
      exact or_comm)

theorem menuLine_data (e : DirEntry) :
    (menuLine e).data =
      ("* " ++ (if e.2.1 = "" then stripInfoStr e.1 else e.2.1) ++ ": (" ++
        stripInfoStr e.1 ++ ").  " ++ e.2.2).data ++ ['.'] := rfl

theorem menuLine_getLast (e : DirEntry) :
    (menuLine e).data.getLast? = some '.' := by
  rw [menuLine_data, List.getLast?_concat]

theorem menuLine_take2 (e : DirEntry) :
    (menuLine e).data.take 2 = ['*', ' '] := rfl

theorem headerLines_no_menuLine (e : DirEntry) :
    menuLine e ∉ dirHeaderLines := by
  intro hmem
  have h1 := menuLine_getLast e
  have h2 := menuLine_take2 e
  simp only [dirHeaderLines, List.mem_cons, List.not_mem_nil, or_false] at hmem
  rcases hmem with h | h | h | h | h | h | h | h | h <;>
    first
    | (rw [h] at h2; exact absurd h2 (by decide))
    | (rw [h] at h1; exact absurd h1 (by decide))

theorem dirFile_menu_count (entries : List DirEntry) (e : DirEntry) :
    (dirFileLines entries).count (menuLine e) =
      entries.countP (fun x => menuLine x == menuLine e) := by
  unfold dirFileLines
  rw [List.count_append, List.count_append]
  have hh : dirHeaderLines.count (menuLine e) = 0 :=
    List.count_eq_zero.mpr (headerLines_no_menuLine e)
  have ht : ([""] : List String).count (menuLine e) = 0 := by
    rw [List.count_eq_zero]
    intro hmem
    have h2 := menuLine_take2 e
    rw [List.mem_singleton.mp hmem] at h2
    exact absurd h2 (by decide)
  rw [hh, ht, List.count_eq_countP, List.countP_map]
  simp only [Nat.zero_add, Nat.add_zero]
  exact (List.perm_insertionSort entryLe entries).countP_eq _

/-- C8 amended: the generated file consists of the fixed nine header lines
(banner, page-break marker, node line, menu heading) followed by the menu
lines; each entry contributes the line star label colon (name) title dot,
where name is the base name with every occurrence of .info removed (not
only a trailing extension) and label is the identifier when non-empty, else
that name; the file contains that line once per entry producing it. -/
theorem dir_index_menu_lines (entries : List DirEntry) (e : DirEntry) :
    (dirFileLines entries).count (menuLine e) =
      entries.countP (fun x => menuLine x == menuLine e) ∧
    (dirFileLines entries).take 9 = dirHeaderLines ∧
    menuLine e = "* " ++ (if e.2.1 = "" then stripInfoStr e.1 else e.2.1) ++
      ": (" ++ stripInfoStr e.1 ++ ").  " ++ e.2.2 ++ "." := by
  refine ⟨dirFile_menu_count entries e, ?_, rfl⟩
  have hassoc : dirFileLines entries =
      dirHeaderLines ++ ((sortEntries entries).map menuLine ++ [""]) := by
    simp [dirFileLines]
  rw [hassoc]
  exact List.take_left' rfl

/-- C8 counterexample: for an entry whose base name is a.infob.info the
code removes every occurrence of .info, so the menu line uses the name ab
rather than the base name without its extension (a.infob): the claimed
menu line is absent from the generated file and the replace-all line is
present. -/
theorem menu_name_counterexample :
    ("* X: (a.infob).  T." : String) ∉
        dirFileLines [("a.infob.info", "X", "T")] ∧
    ("* X: (ab).  T." : String) ∈
        dirFileLines [("a.infob.info", "X", "T")] :=
  ⟨by decide, by decide⟩

/-! ## Claims C5, C6, C7: fetching and the orchestrator -/

/-- C6: fetch is idempotent with existence as the only cache key: when the
destination exists, fetch_xml prints the cached notice and returns with no
transfer and no filesystem change; when it does not exist, the first call
performs the single transfer and a second call with the same destination
takes the no-op cached path (cached notice, no transfer, no change). -/
theorem fetch_cached_idempotent (ex : List Char → Bool)
    (url1 url2 url3 p1 p2 : List Char)
    (h1 : ex p1 = true) (h2 : ex p2 = false) :
    fetch_xml ex url1 p1 = ⟨true, false, ex⟩ ∧
    (fetch_xml ex url2 p2).transferred = true ∧
    fetch_xml (fetch_xml ex url2 p2).existsAfter url3 p2 =
      ⟨true, false, (fetch_xml ex url2 p2).existsAfter⟩ := by
  refine ⟨?_, ?_, ?_⟩
  · simp [fetch_xml, h1]
  · simp [fetch_xml, h2]
  · have hafter : (fetch_xml ex url2 p2).existsAfter p2 = true := by
      simp [fetch_xml, h2]
    generalize hEA : (fetch_xml ex url2 p2).existsAfter = EA at hafter ⊢
    simp [fetch_xml, hafter]

/-- Witness for fetch idempotence at a concrete filesystem in which path a
exists and path b does not. -/
theorem fetch_cached_idempotent_witness :
    fetch_xml (fun p => p == "a".toList) [] "a".toList =
      ⟨true, false, fun p => p == "a".toList⟩ ∧
    (fetch_xml (fun p => p == "a".toList) [] "b".toList).transferred = true ∧
    fetch_xml (fetch_xml (fun p => p == "a".toList) [] "b".toList).existsAfter
        [] "b".toList =
      ⟨true, false,
        (fetch_xml (fun p => p == "a".toList) [] "b".toList).existsAfter⟩ :=
  fetch_cached_idempotent (fun p => p == "a".toList) [] [] [] "a".toList
    "b".toList (by decide) (by decide)

theorem fetchPhase_foldl (tf : List Char × List Char → Option (List Char)) :
    ∀ (specs : List (List Char × List Char)) (acc : List (List Char) × Nat),
      specs.foldl
        (fun acc s =>
          match tf s with
          | some p => (acc.1 ++ [p], acc.2)
          | none => (acc.1, acc.2 + 1)) acc =
      (acc.1 ++ specs.filterMap tf,
        acc.2 + specs.countP (fun s => (tf s).isNone))
  | [], acc => by simp
  | s :: rest, acc => by
    cases hs : tf s with
    | some p =>
      simp only [List.foldl_cons, hs]
      rw [fetchPhase_foldl tf rest (acc.1 ++ [p], acc.2)]
      simp only [Prod.mk.injEq]
      constructor
      · simp [List.filterMap_cons, hs, List.append_assoc]
      · simp [List.countP_cons, hs]
    | none =>
      simp only [List.foldl_cons, hs]
      rw [fetchPhase_foldl tf rest (acc.1, acc.2 + 1)]
      simp only [Prod.mk.injEq]
      constructor
      · simp [List.filterMap_cons, hs]
      · simp [List.countP_cons, hs]
        omega

theorem fetchPhase_eq (tf : List Char × List Char → Option (List Char))
    (specs : List (List Char × List Char)) :
    fetchPhase tf specs =
      (specs.filterMap tf, specs.countP (fun s => (tf s).isNone)) := by
  simpa [fetchPhase] using fetchPhase_foldl tf specs ([], 0)

/-- C7: in sync mode a failing fetch is caught per entry at the call site:
the failing entry is excluded from the subsequent file list, exactly one
failure notice is printed for it, and the entries before and after it are
still fetched and contribute their files exactly as they would without the
failing entry; the run is not aborted. -/
theorem fetch_failure_per_entry
    (tf : List Char × List Char → Option (List Char))
    (pre post : List (List Char × List Char)) (e : List Char × List Char)
    (he : tf e = none) :
    (fetchPhase tf (pre ++ e :: post)).1 = (fetchPhase tf (pre ++ post)).1 ∧
    (fetchPhase tf (pre ++ e :: post)).2 =
      (fetchPhase tf (pre ++ post)).2 + 1 ∧
    (fetchPhase tf (pre ++ e :: post)).1 =
      pre.filterMap tf ++ post.filterMap tf := by
  refine ⟨?_, ?_, ?_⟩
  · simp [fetchPhase_eq, List.filterMap_append, List.filterMap_cons, he]
  · simp [fetchPhase_eq, List.countP_append, List.countP_cons, he]
    omega
  · simp [fetchPhase_eq, List.filterMap_append, List.filterMap_cons, he]

/-- Witness for the per-entry fetch failure theorem at a concrete spec list
whose middle entry fails. -/
theorem fetch_failure_per_entry_witness :
    (fetchPhase (fun s => if s.2 = "bad".toList then none else some s.2)
        ([("u1".toList, "a".toList)] ++ ("u2".toList, "bad".toList) ::
          [("u3".toList, "c".toList)])).1 =
      (fetchPhase (fun s => if s.2 = "bad".toList then none else some s.2)
        ([("u1".toList, "a".toList)] ++ [("u3".toList, "c".toList)])).1 ∧
    (fetchPhase (fun s => if s.2 = "bad".toList then none else some s.2)
        ([("u1".toList, "a".toList)] ++ ("u2".toList, "bad".toList) ::
          [("u3".toList, "c".toList)])).2 =
      (fetchPhase (fun s => if s.2 = "bad".toList then none else some s.2)
        ([("u1".toList, "a".toList)] ++ [("u3".toList, "c".toList)])).2 + 1 ∧
    (fetchPhase (fun s => if s.2 = "bad".toList then none else some s.2)
        ([("u1".toList, "a".toList)] ++ ("u2".toList, "bad".toList) ::
          [("u3".toList, "c".toList)])).1 =
      [("u1".toList, "a".toList)].filterMap
          (fun s => if s.2 = "bad".toList then none else some s.2) ++
        [("u3".toList, "c".toList)].filterMap
          (fun s => if s.2 = "bad".toList then none else some s.2) :=
  fetch_failure_per_entry (fun s => if s.2 = "bad".toList then none else some s.2)
    [("u1".toList, "a".toList)] [("u3".toList, "c".toList)]
    ("u2".toList, "bad".toList) (by decide)

theorem filterMap_length_countP (convert : String → Option DirEntry) :
    ∀ files : List String,
      (files.filterMap convert).length =
        files.countP (fun f => (convert f).isSome)
  | [] => rfl
  | f :: rest => by
    cases h : convert f <;>
      simp [List.filterMap_cons, h, List.countP_cons,
        filterMap_length_countP convert rest]

/-- C5: the orchestrator writes the index file exactly when at least one
conversion succeeded; the final summary is the pair (succeeded, total); and
an explicit-file invocation with a single failing file yields no entries,
no index write, and a 0/1 summary. -/
theorem index_written_iff_success (convert : String → Option DirEntry)
    (files : List String) :
    ((mainConvertPhase convert files).dirFile ≠ none ↔
      ∃ f ∈ files, convert f ≠ none) ∧
    (mainConvertPhase convert files).summary =
      (files.countP (fun f => (convert f).isSome), files.length) ∧
    (∀ f, convert f = none →
      mainConvertPhase convert [f] = ⟨[], none, (0, 1)⟩) := by
  refine ⟨⟨?_, ?_⟩, ?_, ?_⟩
  · intro hd
    by_contra hno
    push_neg at hno
    have h : files.filterMap convert = [] :=
      List.filterMap_eq_nil_iff.mpr fun a ha => hno a ha
    exact hd (by simp [mainConvertPhase, h])
  · intro hex hd
    obtain ⟨f, hf, hc⟩ := hex
    have h : files.filterMap convert ≠ [] := fun h0 =>
      hc (List.filterMap_eq_nil_iff.mp h0 f hf)
    simp [mainConvertPhase, h] at hd
  · simp [mainConvertPhase, filterMap_length_countP]
  · intro f hf
    simp [mainConvertPhase, hf]

/-- Witness: a single-file run whose conversion fails produces no entries,
no index write, and the 0/1 summary. -/
theorem index_written_iff_success_witness :
    mainConvertPhase (fun _ => none) ["f.xml"] = ⟨[], none, (0, 1)⟩ :=
  (index_written_iff_success (fun _ => none) ["f.xml"]).2.2 "f.xml" rfl

end Rfc2Texi
